import Mathlib

/-!
A verification development for the `knieriem/text` repository, centred on the
`rc` tokenizer/quoter (package `rc`) and the command interpreter
(package `interp`).  Go strings are modelled as lists of runes
(`List Char`); Go maps as association lists with map-like update;
Go slices used as stacks as Lean lists whose head is the topmost element
(Go appends at the end of the slice).
-/

deriving instance DecidableEq for Except

namespace Rc

/-- Go strings, ranged over rune by rune. -/
abbrev Str := List Char

/-- The single-quote rune. -/
def squote : Char := Char.ofNat 39

/-- The backtick rune. -/
def backquote : Char := Char.ofNat 96

/-- The special characters of `NeedsQuote` in rc/quote.go. -/
def specials : List Char :=
  [backquote, '^', '#', '*', '[', ']', '=', '|', '\\', '?', '$',
   '{', '}', '(', ')', squote, '<', '>', '&', ';']

/-- rc/quote.go `NeedsQuote`: whitespace/control characters and the
specials force quoting; runes at or above `utf8.RuneSelf` (0x80) never do. -/
def NeedsQuote (r : Char) : Bool :=
  if r ≤ ' ' then true
  else if 0x80 ≤ r.val then false
  else specials.contains r

/-- `strings.Replace(part, "'", "''", -1)`: double every single quote. -/
def escQuotes : Str → Str
  | [] => []
  | c :: cs => if c = squote then c :: c :: escQuotes cs else c :: escQuotes cs

/-- The `addPart` closure of rc/quote.go `quote`: append `part` to `q`,
wrapped in single quotes (with inner quotes doubled) when `quotePart` is set. -/
def addPart (quotePart : Bool) (q part : Str) : Str :=
  if quotePart then q ++ squote :: (escQuotes part ++ [squote]) else q ++ part

/-- The rune loop of rc/quote.go `quote`.  `pend` holds the slice
`s[i0:i]` that Go keeps by index; a hit of an `unquoted` character flushes
it through `addPart` and emits the character verbatim. -/
def quoteLoop (unquoted : Str) : Str → Bool → Str → Str → Str
  | [], quotePart, q, pend =>
      if pend = [] then q else addPart quotePart q pend
  | r :: rest, quotePart, q, pend =>
      if unquoted ≠ [] ∧ r.val < 0x80 ∧ unquoted.contains r then
        let q' := if pend = [] then q else addPart quotePart q pend
        quoteLoop unquoted rest (if pend = [] then quotePart else false)
          (q' ++ [r]) []
      else
        quoteLoop unquoted rest (quotePart || NeedsQuote r) q (pend ++ [r])

/-- rc/quote.go `quote`. -/
def quote (s unquoted : Str) : Str := quoteLoop unquoted s false [] []

/-- rc/quote.go `Quote`. -/
def Quote (s : Str) : Str := quote s []

/-- rc/quote.go `QuoteCmd`: like `Quote` but `=` stays verbatim. -/
def QuoteCmd (s : Str) : Str := quote s ['=']

/-- rc/quote.go `Join`: `js += " " + Quote(s)` for every element. -/
def Join (list : List Str) : Str :=
  if list.isEmpty then [] else list.foldl (fun js s => js ++ ' ' :: Quote s) []

/-- rc/quote.go `JoinCmd`: `js += " " + QuoteCmd(s)` for every element. -/
def JoinCmd (list : List Str) : Str :=
  if list.isEmpty then []
  else list.foldl (fun js s => js ++ ' ' :: QuoteCmd s) []


/-- The spec's words for `Join`: the elements with a single space between
consecutive elements and no leading or trailing separator. -/
def spaceSeparated : List Str → Str
  | [] => []
  | [s] => s
  | s :: rest => s ++ ' ' :: spaceSeparated rest

/-- rc/environ.go `EnvMap`: a Go map from names to value lists, modelled
as an association list updated map-wise. -/
abbrev EnvMap := List (Str × List Str)

/-- Lookup in an `EnvMap` (Go `v, ok := m[name]`). -/
def EnvMap.lookup (m : EnvMap) (name : Str) : Option (List Str) :=
  match m with
  | [] => none
  | (k, v) :: rest => if k = name then some v else EnvMap.lookup rest name

/-- Go map assignment `m[name] = v`. -/
def EnvMap.update (m : EnvMap) (name : Str) (v : List Str) : EnvMap :=
  match m with
  | [] => [(name, v)]
  | (k, w) :: rest =>
      if k = name then (name, v) :: rest else (k, w) :: EnvMap.update rest name v

/-- rc/environ.go `EnvMap.Insert`: copy all elements from `src` into `m`. -/
def EnvMap.Insert (m src : EnvMap) : EnvMap :=
  src.foldl (fun acc kv => EnvMap.update acc kv.1 kv.2) m

/-- rc/environ.go `EnvStack`: the Go slice grows at the end; here the head
of the list is the topmost frame. -/
abbrev EnvStack := List EnvMap

/-- rc/environ.go `EnvStack.Get`: walk from the topmost frame down and
return the list bound in the first frame whose map contains the name,
else the empty list. -/
def EnvStack.Get (s : EnvStack) (name : Str) : List Str :=
  match s with
  | [] => []
  | m :: rest =>
      match EnvMap.lookup m name with
      | some v => v
      | none => EnvStack.Get rest name

/-- rc/environ.go `EnvStack.Set`: write into the topmost frame. -/
def EnvStack.Set (s : EnvStack) (name : Str) (v : List Str) : EnvStack :=
  match s with
  | [] => []
  | m :: rest => EnvMap.update m name v :: rest

/-- rc/environ.go `EnvStack.Push` (a nil frame becomes an empty one). -/
def EnvStack.Push (s : EnvStack) (m : EnvMap) : EnvStack := m :: s

/-- rc/environ.go `EnvStack.Pop`: drop the topmost frame. -/
def EnvStack.Pop (s : EnvStack) : EnvStack := s.tail

/-- rc/environ.go `EnvStack.Insert`: copy all bindings of `m` into the
topmost frame. -/
def EnvStack.Insert (s : EnvStack) (m : EnvMap) : EnvStack :=
  match s with
  | [] => []
  | top :: rest => EnvMap.Insert top m :: rest

/-- The token tree of rc/tokenize.go.  `nilt` models a nil `token`
interface value (Go's `expandEnv` returns nil for an unset variable). -/
inductive Token where
  | str : Str → Token
  | varRef : Str → Bool → Token
  | assignment : Token → Str → Token
  | redir : Str → Token
  | group : List Token → Token
  | strList : List Str → Token
  | nilt : Token

mutual

/-- The `String()` methods of the token variants.  On `nilt` the Go
program would dereference a nil interface and panic; that path is not
reached by any theorem below. -/
def Token.toString : Token → Str
  | .str s => s
  | .varRef s _ => s
  | .assignment name v => Token.toString name ++ v
  | .redir s => s
  | .group ts => Token.listString ts
  | .strList _ => "<stringListToken>".data
  | .nilt => []

/-- `groupToken.String()`: concatenate the sub-token strings. -/
def Token.listString : List Token → Str
  | [] => []
  | t :: ts => Token.toString t ++ Token.listString ts

end

/-- `setString` of the token variants (`groupToken` and
`stringListToken` ignore it). -/
def Token.setString : Token → Str → Token
  | .str _, text => .str text
  | .varRef _ c, text => .varRef text c
  | .assignment name _, text => .assignment name text
  | .redir _, text => .redir text
  | .group ts, _ => .group ts
  | .strList l, _ => .strList l
  | .nilt, _ => .nilt

/-- `addString` appends to the embedded `stringToken` of a variant. -/
def Token.addString : Token → Str → Token
  | .str s, text => .str (s ++ text)
  | .varRef s c, text => .varRef (s ++ text) c
  | .assignment name v, text => .assignment name (v ++ text)
  | .redir s, text => .redir (s ++ text)
  | t, _ => t

/-- Whether a token satisfies the `stringAdder` interface (has a promoted
pointer-receiver `addString`): every variant embedding `stringToken`. -/
def Token.isAdder : Token → Bool
  | .str _ => true
  | .varRef _ _ => true
  | .assignment _ _ => true
  | .redir _ => true
  | _ => false

/-- Whether a token is the model of a nil interface value. -/
def Token.isNil : Token → Bool
  | .nilt => true
  | _ => false

/-- The mutable locals of rc/tokenize.go `do`.  `pend` models the open
slice `s[i0:i]` (`none` is `i0 == -1`); `field` the open group;
`t` the pending typed token. -/
structure DoState where
  fields : List Token := []
  field : List Token := []
  t : Option Token := none
  pend : Option Str := none
  quoting : Bool := false
  wasq : Bool := false
  countAssign : Bool := true
  seenAssign : Bool := false
  nAssign : Nat := 0

/-- The `setText` closure of `do`: with no pending token, text merges into
a trailing plain-string member of the open group; otherwise it becomes or
replaces the pending token's text. -/
def DoState.setText (st : DoState) (text : Str) : DoState :=
  match st.t with
  | none =>
      match st.field.getLast? with
      | some (.str s) => { st with field := st.field.dropLast ++ [.str (s ++ text)] }
      | _ => { st with t := some (.str text) }
  | some tk => { st with t := some (tk.setString text) }

/-- The `addField` closure of `do`: flush the pending slice and close the
open field, counting the assignment prefix. -/
def DoState.addField (st : DoState) : DoState :=
  match st.pend with
  | none => st
  | some pendText =>
      let st :=
        if st.countAssign then
          if st.seenAssign then
            { st with nAssign := st.nAssign + 1, seenAssign := false }
          else { st with countAssign := false }
        else st
      let st := st.setText pendText
      let st :=
        match st.t with
        | some tk =>
            if st.field.isEmpty then { st with fields := st.fields ++ [tk] }
            else { st with field := st.field ++ [tk] }
        | none => st
      let st :=
        match st.field with
        | [] => st
        | [f] => { st with fields := st.fields ++ [f] }
        | fs => { st with fields := st.fields ++ [Token.group fs] }
      { st with field := [], t := none, pend := none }

/-- The `flushToken` closure of `do`: flush the pending slice into the
open group (the caller then re-seats `pend`, as Go re-seats `i0`). -/
def DoState.flushToken (st : DoState) : DoState :=
  match st.pend with
  | none => st
  | some pendText =>
      let st := st.setText pendText
      match st.t with
      | some tk => { st with field := st.field ++ [tk], t := none }
      | none => st

/-- Result of one step of the scanner: continue, stop (a `#` comment
returns early), or a syntax error naming the offending rune. -/
inductive StepRes where
  | cont : DoState → StepRes
  | stop : DoState → StepRes
  | err : Char → StepRes

/-- Whether a rune may continue a variable reference
(Go: `unicode.IsLetter(r) || r == '_' || unicode.IsDigit(r) || r == '*'
|| r == '(' || r == ')'`; letters and digits are modelled by their ASCII
classes). -/
def isVarRefChar (r : Char) : Bool :=
  r.isAlpha || r = '_' || r.isDigit || r = '*' || r = '(' || r = ')'

/-- The default branch of the rune switch in `do` (also reached by
fallthrough from a literal `=`). -/
def doDefault (r : Char) (st : DoState) : DoState :=
  match st.t with
  | some (.varRef _ _) =>
      if !isVarRefChar r then
        let st := st.flushToken
        { st with pend := some [r] }
      else { st with pend := some ((st.pend.getD []) ++ [r]) }
  | _ => { st with pend := some ((st.pend.getD []) ++ [r]) }

/-- One rune of rc/tokenize.go `do`.  Where Go moves `i0`, the model
re-seats `pend`: `i0 = i+1` is `pend := some []`, `i0 = i` is
`pend := some [r]`, and the `i0--` after a was-quote re-includes the
closing quote character. -/
def doStep (handleSpecial : Bool) (r : Char) (st : DoState) : StepRes :=
  if r = squote then
    if !st.quoting then
      let st :=
        if st.wasq then
          { st with pend := some (squote :: st.pend.getD []), wasq := false }
        else st
      let st := { st with quoting := true }.flushToken
      .cont { st with pend := some [] }
    else
      let st := { st with quoting := false, wasq := true }.flushToken
      .cont { st with pend := some [] }
  else
    let st := { st with wasq := false }
    if st.quoting then
      .cont { st with pend := some ((st.pend.getD []) ++ [r]) }
    else if r = ' ' ∨ r = '\t' ∨ r = '\r' ∨ r = '\n' then
      .cont st.addField
    else if !handleSpecial then
      .cont { st with pend := some ((st.pend.getD []) ++ [r]) }
    else if r = '<' ∨ r = '>' then
      match st.t with
      | some (.redir _) => .cont { st with pend := some ((st.pend.getD []) ++ [r]) }
      | _ =>
          let st := st.addField
          .cont { st with t := some (.redir []), pend := some [r] }
    else if r = '$' then
      let st := st.flushToken
      .cont { st with t := some (.varRef [] false), pend := some [r] }
    else if r = '^' then
      match st.pend with
      | none =>
          match st.fields.getLast? with
          | none => .err r
          | some tPrev =>
              let fld :=
                match tPrev with
                | .group g => g
                | _ => [tPrev]
              .cont { st with fields := st.fields.dropLast, field := fld,
                              pend := some [] }
      | some _ =>
          let st := st.flushToken
          .cont { st with pend := some [] }
    else if r = '#' then
      match st.t with
      | some (.varRef v isCount) =>
          if isCount then .err r
          else .cont { st with t := some (.varRef v true),
                               pend := some ((st.pend.getD []) ++ [r]) }
      | _ => .stop st.addField
    else if r = '=' then
      if (match st.t with | some (.assignment _ _) => false | _ => true)
          && st.countAssign && !st.seenAssign && st.pend.isSome then
        let st := { st with seenAssign := true }.flushToken
        .cont { st with t := some (.assignment (.group st.field) []),
                        field := [], pend := some [r] }
      else .cont (doDefault r st)
    else .cont (doDefault r st)

/-- The rune loop of `do`, ending with a final `addField`. -/
def doLoop (handleSpecial : Bool) : List Char → DoState →
    Except Char (List Token × Nat)
  | [], st =>
      let st := st.addField
      .ok (st.fields, st.nAssign)
  | r :: rest, st =>
      match doStep handleSpecial r st with
      | .err c => .error c
      | .stop st => .ok (st.fields, st.nAssign)
      | .cont st => doLoop handleSpecial rest st

/-- rc/tokenize.go `Tokenizer.do`. -/
def doScan (s : Str) (handleSpecial : Bool) : Except Char (List Token × Nat) :=
  doLoop handleSpecial s {}

/-- `groupToken.fields()`: the strings of the tokens before any
redirection token. -/
def groupFields : List Token → List Str
  | [] => []
  | t :: rest =>
      match t with
      | .redir _ => []
      | _ => t.toString :: groupFields rest

/-- rc/tokenize.go `Redirection` (`Typ` models the Go field `Type`,
which is a Lean keyword). -/
structure Redirection where
  Typ : Str
  Filename : Str
deriving DecidableEq

/-- `groupToken.redirection()`: the first redirection token's operator and
the string of the token that follows it. -/
def groupRedirection : List Token → Redirection
  | [] => ⟨[], []⟩
  | t :: rest =>
      match t with
      | .redir s =>
          match rest with
          | [] => ⟨s, []⟩
          | f :: _ => ⟨s, f.toString⟩
      | _ => groupRedirection rest

/-- rc/tokenize.go `Tokenize`: field split with quote handling, no
variable expansion (`do` never reports an error with `handleSpecial`
false, so the error arm is unreachable). -/
def Tokenize (s : Str) : List Str :=
  match doScan s false with
  | .ok (tokens, _) => groupFields tokens
  | .error _ => []

/-- One rune of the tokenize-only scanner as a plain state map (`do` with
`handleSpecial` false never stops early or errs; the other arms are
unreachable). -/
def tokStep (r : Char) (st : DoState) : DoState :=
  match doStep false r st with
  | .cont st2 => st2
  | .stop st2 => st2
  | .err _ => st

/-- The tokenize-only scanner folded over a rune list. -/
def tokSteps : List Char → DoState → DoState
  | [], st => st
  | r :: rest, st => tokSteps rest (tokStep r st)

/-- Scanner state between fields: nothing open.  `b` carries
`countAssign` (it flips to false at the first completed field). -/
def cleanState (F : List Token) (b : Bool) : DoState :=
  { fields := F, countAssign := b }

/-- Scanner state inside an unquoted word: the open slice holds `p`. -/
def wordState (F : List Token) (b : Bool) (p : Str) : DoState :=
  { fields := F, countAssign := b, pend := some p }

/-- Scanner state inside a quoted run: the open group holds the merged
prefix, the open slice the run since the last quote. -/
def quotedState (F : List Token) (b : Bool) (fld : List Token) (p : Str) :
    DoState :=
  { fields := F, countAssign := b, field := fld, pend := some p, quoting := true }

/-- Scanner state just after a closing quote (`wasq` set, the whole
field merged into one string token). -/
def loadedQState (F : List Token) (b : Bool) (s : Str) : DoState :=
  { fields := F, countAssign := b, field := [.str s], pend := some [],
    wasq := true }

/-- The text accumulated by a quoted run: the merged group prefix plus
the open slice. -/
def qcontent (fld : List Token) (p : Str) : Str :=
  (match fld with
   | [.str q] => q
   | _ => []) ++ p

/-- A rune the tokenize-only scanner treats as ordinary: not a quote and
not field-breaking whitespace. -/
def plainChar (c : Char) : Bool :=
  !(c == squote || c == ' ' || c == '\t' || c == '\r' || c == '\n')

/-- `argrefRE`: `^[1-9][0-9]*$`. -/
def isArgRef (ref : Str) : Bool :=
  match ref with
  | [] => false
  | c :: cs => ('1' ≤ c ∧ c ≤ '9') ∧ cs.all Char.isDigit

/-- `strconv.Atoi` on the digit strings accepted by the two regexes. -/
def digitsToNat (s : Str) : Nat :=
  s.foldl (fun n c => n * 10 + (c.toNat - '0'.toNat)) 0

/-- `arridxRE`: the match of `\(([0-9]*)\)$` as (prefix before the
match, captured digits). -/
def arrIdxMatch (ref : Str) : Option (Str × Str) :=
  match ref.getLast? with
  | some c =>
      if c = ')' then
        let body := ref.dropLast
        let digits := (body.reverse.takeWhile Char.isDigit).reverse
        match body.reverse.dropWhile Char.isDigit with
        | '(' :: rest2 => some (rest2.reverse, digits)
        | _ => none
      else none
  | none => none

/-- One pass of `mergeStringTokens`: `prev` is the live string-adder into
which following plain-string tokens are merged; the Bool accumulates
`anyMerges`. -/
def mergePass : List Token → Option Token → Bool → (List Token × Bool)
  | [], prev, any =>
      ((match prev with | some p => [p] | none => []), any)
  | t :: rest, none, any =>
      if t.isAdder then mergePass rest (some t) any
      else
        let (l, a) := mergePass rest none any
        (t :: l, a)
  | t :: rest, some p, any =>
      match t with
      | .str s => mergePass rest (some (p.addString s)) true
      | _ =>
          let (l, a) := mergePass rest none any
          (p :: t :: l, a)

/-- rc/tokenize.go `mergeStringTokens`: with no merges the original list
(nil members included) is returned as a group; otherwise nil members are
filtered out and a singleton collapses. -/
def mergeStringTokens (list : List Token) : Token :=
  let res := mergePass list none false
  if !res.2 then .group list
  else
    match res.1.filter (fun t => !t.isNil) with
    | [f] => f
    | fs => .group fs

mutual

/-- rc/tokenize.go `Tokenizer.expandEnv` for one token. -/
def expandEnv (g : Str → List Str) : Token → Token
  | .group x => mergeStringTokens (expandList g x)
  | .assignment name v => .assignment (expandEnv g name) v
  | .varRef text isCount =>
      let ref := text.drop 1
      if isCount then
        (Token.varRef text isCount).setString
          (Nat.toDigits 10 (g (ref.drop 1)).length)
      else
        let analysis : Option (Option Nat × Str) :=
          if isArgRef ref then
            some (if digitsToNat ref = 0 then none else some (digitsToNat ref - 1),
                  ['*'])
          else
            match arrIdxMatch ref with
            | some (pre, digits) =>
                if digits = [] ∨ digits = ['0'] then none
                else
                  some (if digitsToNat digits = 0 then none
                        else some (digitsToNat digits - 1), pre)
            | none => some (none, ref)
        match analysis with
        | none => (Token.varRef text isCount).setString []
        | some (i, ref) =>
            let value := g ref
            match i with
            | none =>
                match value with
                | [] => .nilt
                | [v] => .str v
                | _ => .strList value
            | some i => if value.length ≤ i then .str [] else .str (value.getD i [])
  | t => t

/-- `expandEnv` mapped over a token list (the loop in `ParseCmdLine` and
the group case of `expandEnv`). -/
def expandList (g : Str → List Str) : List Token → List Token
  | [] => []
  | t :: ts => expandEnv g t :: expandList g ts

end

/-- rc/tokenize.go `flattenStringLists`. -/
def flattenStringLists : List Token → List Token
  | [] => []
  | t :: rest =>
      match t with
      | .strList l => l.map Token.str ++ flattenStringLists rest
      | _ => t :: flattenStringLists rest

/-- rc/tokenize.go `CmdLine`. -/
structure CmdLine where
  Assignments : EnvMap
  Fields : List Str
  Redir : Redirection
deriving DecidableEq

/-- The assignment-prefix loop of `ParseCmdLine` (Go type-asserts
`*assignmentToken` and would panic on any other variant). -/
def mkAssignments (tokens : List Token) : EnvMap :=
  tokens.foldl
    (fun acc t =>
      match t with
      | .assignment name v => EnvMap.update acc name.toString [v.drop 1]
      | _ => acc)
    []

/-- rc/tokenize.go `Tokenizer.ParseCmdLine`: lex, expand (when a getenv
callback is configured), filter nil tokens, flatten list tokens, then
split off the assignment prefix and the redirection. -/
def ParseCmdLine (getenv : Option (Str → List Str)) (s : Str) :
    Except Char CmdLine :=
  match doScan s true with
  | .error r => .error r
  | .ok (tokens, nAssign) =>
      let tokens :=
        match getenv with
        | some g => (expandList g tokens).filter (fun t => !t.isNil)
        | none => tokens
      let tokens := flattenStringLists tokens
      let flds := groupFields tokens
      let rdr := groupRedirection tokens
      if nAssign ≠ 0 then
        .ok ⟨mkAssignments (tokens.take nAssign), flds.drop nAssign, rdr⟩
      else .ok ⟨[], flds, rdr⟩

end Rc

namespace Interp

/-- The error values of package interp.  `msg` models `errors.New`. -/
inductive Err where
  | interrupt : Err
  | lastCmdFailed : Err
  | wrongNArg : Err
  | notFound : Err
  | msg : Rc.Str → Err
deriving DecidableEq

/-- interp `repetition`.  The deadline comparison `time.Now().After(r.end)`
is modelled by a pre-computed flag: `endPassed = none` is `end.IsZero()`,
`some b` the comparison's outcome (no claim exercises deadlines). -/
structure Repetition where
  n : Int
  endPassed : Option Bool := none
deriving DecidableEq

/-- `repetition.done()` on a possibly-nil pointer; it decrements `n`, so
the updated record is returned alongside. -/
def Repetition.done : Option Repetition → Bool × Option Repetition
  | none => (true, none)
  | some r =>
      if 1 < r.n then (false, some { r with n := r.n - 1 })
      else if r.n = 0 then
        match r.endPassed with
        | some b => (b, some r)
        | none => (true, some r)
      else (true, some r)

/-- The `cond` record of a stack entry. -/
structure CondState where
  cmd : Rc.Str := []
  result : Option Bool := none
deriving DecidableEq

/-- interp `stackEntry`.  The line reader is modelled by its remaining
lines, the rewind thunk by the lines a fresh reader would yield; the
per-frame writer is not modelled (output is not observed by any claim). -/
structure StackEntry where
  lines : List Rc.Str := []
  repetition : Option Repetition := none
  rewind : Option (List Rc.Str) := none
  popEnv : Bool := false
  savedArgs : Option (List Rc.Str) := none
  isFunc : Bool := false
  isCompound : Bool := false
  cond : CondState := {}
deriving DecidableEq

/-- `stackEntry.isLoop`. -/
def StackEntry.isLoop (e : StackEntry) : Bool := e.repetition.isSome

/-- The mutable state of interp `CmdLine` that the claims observe.  The
input stack is head-topmost (Go appends at the slice's end); the
redirection file cache is modelled by its set of keys.  Writers, the
template map, the interrupt channel and the forward writer are not
modelled. -/
structure InterpState where
  cur : StackEntry := {}
  inputStack : List StackEntry := []
  lastOk : Bool := true
  savedPrompt : Rc.Str := []
  Prompt : Rc.Str := []
  env : Rc.EnvStack := []
  funcMap : List (Rc.Str × Rc.Str) := []
  flagE : Bool := false
  flagX : Bool := false
  exitFlag : Bool := false
  redirFiles : List Rc.Str := []
deriving DecidableEq

/-- interp `Cmd`.  `Fn` is the command body as a state transformer; the
sub-command `Map` and `InitFlags` are not modelled (no claim concerns
dotted lookup or flag parsing). -/
structure Cmd where
  Fn : InterpState → List Rc.Str → InterpState × Option Err
  Arg : List Rc.Str := []
  Opt : List Rc.Str := []
  Hidden : Bool := false
  ignoreEnv : Bool := false
  HideFailure : Bool := false
  weakStatus : Bool := false
  isCompound : Bool := false

/-- interp `CmdMap` as an association list. -/
abbrev CmdMap := List (Rc.Str × Cmd)

/-- Association-list lookup for command and function maps. -/
def lookupAssoc {α : Type} : List (Rc.Str × α) → Rc.Str → Option α
  | [], _ => none
  | (k2, v) :: rest, k => if k2 = k then some v else lookupAssoc rest k

/-- `bufio.Scanner` with `ScanLines` over a string: split at newlines,
drop a final empty token, strip one trailing carriage return per line. -/
def dropCR (l : Rc.Str) : Rc.Str :=
  if l.getLast? = some '\r' then l.dropLast else l

/-- The list of lines a string-source frame delivers. -/
def splitLines (s : Rc.Str) : List Rc.Str :=
  if s = [] then []
  else
    let parts := s.splitOn '\n'
    let parts := if parts.getLast? = some [] then parts.dropLast else parts
    parts.map dropCR

/-- interp `CmdLine.pushStack`: save the current frame, make the new one
current, and blank a non-empty prompt. -/
def pushStack (st : InterpState) (lines : List Rc.Str) (rpt : Option Repetition)
    (rewind : Option (List Rc.Str)) : InterpState :=
  let st := { st with inputStack := st.cur :: st.inputStack,
                      cur := { lines := lines, repetition := rpt, rewind := rewind } }
  if st.Prompt ≠ [] then { st with savedPrompt := st.Prompt, Prompt := [] } else st

/-- interp `CmdLine.pushStringStack`. -/
def pushStringStack (st : InterpState) (cmds : Rc.Str) : InterpState :=
  pushStack st (splitLines cmds) none none

/-- interp `CmdLine.popStack`: run the frame's environment restores, make
the saved frame current, and restore the prompt when the stack empties.
Go would panic on an empty stack; callers guard, so that arm returns the
state unchanged. -/
def popStack (st : InterpState) : InterpState :=
  let st := if st.cur.popEnv then { st with env := st.env.Pop } else st
  let st :=
    match st.cur.savedArgs with
    | some a => { st with env := st.env.Set ['*'] a }
    | none => st
  match st.inputStack with
  | [] => st
  | top :: rest =>
      let st := { st with cur := top, inputStack := rest }
      if rest.isEmpty then { st with Prompt := st.savedPrompt } else st

/-- The loop of `popStackAll`, with the stack depth as fuel (each
iteration of the Go loop pops exactly one frame). -/
def popStackAllAux : Nat → InterpState → InterpState
  | 0, st => st
  | n + 1, st => if st.inputStack.isEmpty then st else popStackAllAux n (popStack st)

/-- interp `CmdLine.popStackAll`. -/
def popStackAll (st : InterpState) : InterpState :=
  popStackAllAux st.inputStack.length st

/-- The loop of `breakLoop`, with the stack depth as fuel; the zero-fuel
arm is unreachable because every iteration pops one frame off a stack the
guard has just found non-empty. -/
def breakLoopAux : Nat → Bool → InterpState → InterpState × Option Err
  | fuel, isLoop, st =>
      if st.inputStack.isEmpty || st.cur.isFunc then
        if !isLoop then
          ((if st.cur.isFunc then popStackAll st else st),
            some (.msg "not within a loop".data))
        else (st, none)
      else
        let st := popStack st
        if isLoop then (st, none)
        else
          match fuel with
          | 0 => (st, none)
          | n + 1 => breakLoopAux n st.cur.isLoop st

/-- interp `CmdLine.breakLoop`. -/
def breakLoop (st : InterpState) : InterpState × Option Err :=
  breakLoopAux st.inputStack.length st.cur.isLoop st

/-- The loop of `returnFromFunc`, fueled like `breakLoopAux`. -/
def returnFromFuncAux : Nat → InterpState → InterpState × Option Err
  | fuel, st =>
      if st.cur.isFunc then (popStack st, none)
      else if st.inputStack.isEmpty then
        (st, some (.msg "not within a function".data))
      else
        match fuel with
        | 0 => (st, none)
        | n + 1 => returnFromFuncAux n (popStack st)

/-- interp `CmdLine.returnFromFunc`. -/
def returnFromFunc (st : InterpState) : InterpState × Option Err :=
  returnFromFuncAux st.inputStack.length st

/-- interp `CmdLine.setFnError`: report (not modelled), clear `lastOk`,
and raise the exit flag when flag `e` is set outside a compound frame. -/
def setFnError (st : InterpState) : InterpState :=
  let st := { st with lastOk := false }
  if st.flagE && !st.cur.isCompound then { st with exitFlag := true } else st

/-- interp `CmdLine.redirect`: `>` and `>>` open (or reuse) a cache
entry; any other operator is "redirection type not supported".  File
opening always succeeds in the model. -/
def redirect (st : InterpState) (op filename : Rc.Str) :
    InterpState × Option Err :=
  if op = ['>'] ∨ op = ['>', '>'] then
    (if st.redirFiles.contains filename then st
     else { st with redirFiles := filename :: st.redirFiles }, none)
  else (st, some (.msg "redirection type not supported".data))

/-- The argument-count validation of `CmdLine.Process` (the `nmin` /
`checkNMin` block): true when the count is rejected. -/
def arityWrong (Arg Opt : List Rc.Str) (n : Nat) : Bool :=
  let narg := Arg.length
  let nopt := Opt.length
  if narg > 0 ∧ Arg.getLast? = some "...".data then
    n < narg - 1
  else if nopt > 1 ∧ Opt.getLast? = some "...".data then
    n < narg
  else if n > narg + nopt then true
  else n < narg

/-- The head of the command invocation block of `CmdLine.Process`: the
optional private-environment push followed by the command body `Fn`. -/
def runPre (st : InterpState) (cmd : Cmd) (args : List Rc.Str)
    (assignments : Rc.EnvMap) (privEnv : Bool) : InterpState × Option Err :=
  cmd.Fn
    (if privEnv then
      (if !cmd.ignoreEnv then { st with env := st.env.Push assignments } else st)
     else st) args

/-- The command invocation block of `CmdLine.Process` (after lookup and
argument validation): private-environment push and `Fn` (via `runPre`),
`lastOk` update unless `weakStatus`, clearing of the condition result,
`HideFailure`, private-environment pop, and error reporting.  The
post-`Fn` interrupt probe is not modelled. -/
def runCmd (st : InterpState) (cmd : Cmd) (args : List Rc.Str)
    (assignments : Rc.EnvMap) (privEnv : Bool) : InterpState :=
  let res := runPre st cmd args assignments privEnv
  let st := res.1
  let err := res.2
  let st := if !cmd.weakStatus then { st with lastOk := err.isNone } else st
  let st := { st with cur := { st.cur with cond := { st.cur.cond with result := none } } }
  let err := if cmd.HideFailure then none else err
  let st := if privEnv then { st with env := st.env.Pop } else st
  match err with
  | some _ => setFnError st
  | none => st

/-- The tail of the dispatch loop for a resolved descriptor: argument
validation, then invocation (`Process` lines around `checkNMin`;
`n := len(args) - 1`). -/
def invokeFound (st : InterpState) (cmd : Cmd) (args : List Rc.Str)
    (assignments : Rc.EnvMap) (privEnv : Bool) : InterpState :=
  if arityWrong cmd.Arg cmd.Opt (args.length - 1) then setFnError st
  else runCmd st cmd args assignments privEnv

/-- The prompt-stripping loop of `Process` (`strings.HasPrefix` /
re-slice until the prompt no longer prefixes the line), fueled by the
line length. -/
def stripPromptAux : Nat → Rc.Str → Rc.Str → Rc.Str
  | 0, _, line => line
  | n + 1, prompt, line =>
      if prompt.isPrefixOf line then
        stripPromptAux n prompt (line.drop prompt.length)
      else line

/-- All leading copies of a non-empty prompt are stripped from the line. -/
def stripPrompt (prompt line : Rc.Str) : Rc.Str :=
  stripPromptAux (line.length + 1) prompt line

/-- The per-line body of the `Process` dispatch loop (parse, redirect,
assignment-only lines, user functions, `help`, lookup in the user map
with builtin fallback, argument validation, invocation).  Dotted sub-map
lookup and the forward writer are not modelled. -/
def processLine (cmdMap builtin : CmdMap) (st : InterpState) (line : Rc.Str) :
    InterpState :=
  let line := if st.Prompt ≠ [] then stripPrompt st.Prompt line else line
  match Rc.ParseCmdLine (some st.env.Get) line with
  | .error _ => setFnError st
  | .ok c =>
      let resR :=
        if c.Redir.Typ ≠ [] then redirect st c.Redir.Typ c.Redir.Filename
        else (st, none)
      let st := resR.1
      if resR.2.isSome then setFnError st
      else
        match c.Fields with
        | [] =>
            if !c.Assignments.isEmpty then
              { st with env := st.env.Insert c.Assignments }
            else st
        | name :: restArgs =>
            let args := name :: restArgs
            let privEnv := !c.Assignments.isEmpty
            match lookupAssoc st.funcMap name with
            | some body =>
                let st :=
                  if privEnv then { st with env := st.env.Push c.Assignments }
                  else st
                let st := pushStringStack st body
                let st :=
                  if privEnv then { st with cur := { st.cur with popEnv := true } }
                  else
                    { st with cur :=
                        { st.cur with savedArgs := some (st.env.Get ['*']) } }
                let st := { st with env := st.env.Set ['*'] restArgs }
                { st with cur := { st.cur with isFunc := true } }
            | none =>
                if name = "help".data then st
                else
                  match
                    (match lookupAssoc cmdMap name with
                     | some cmd => some cmd
                     | none => lookupAssoc builtin name) with
                  | none => setFnError st
                  | some cmd => invokeFound st cmd args c.Assignments privEnv

/-- The `Process` loop: test the exit flag, read a line from the current
frame, and on exhaustion rewind a live repetition, pop a finished frame,
or return.  The result's second component is `none` when the fuel ran
out, otherwise `some` of `Process`'s return value.  Scanner errors,
prompts as output, interrupts and the `InitRc` push are not modelled. -/
def ProcessAux (cmdMap builtin : CmdMap) : Nat → InterpState →
    InterpState × Option (Option Err)
  | 0, st => (st, none)
  | fuel + 1, st =>
      if st.exitFlag then
        (st, some (if st.flagE ∧ !st.lastOk then some .lastCmdFailed else none))
      else
        match st.cur.lines with
        | [] =>
            if !st.inputStack.isEmpty then
              let resD := Repetition.done st.cur.repetition
              let st := { st with cur := { st.cur with repetition := resD.2 } }
              if !resD.1 then
                ProcessAux cmdMap builtin fuel
                  { st with cur := { st.cur with lines := st.cur.rewind.getD [] } }
              else ProcessAux cmdMap builtin fuel (popStack st)
            else (st, some (if !st.lastOk then some .lastCmdFailed else none))
        | line :: rest =>
            let st := { st with cur := { st.cur with lines := rest } }
            ProcessAux cmdMap builtin fuel (processLine cmdMap builtin st line)

/-- interp `CmdLine.Process` (the fuel bounds the number of loop
iterations). -/
def Process (cmdMap builtin : CmdMap) (fuel : Nat) (st : InterpState) :
    InterpState × Option (Option Err) :=
  ProcessAux cmdMap builtin fuel st

/-- The `false` builtin: fails with "false", failure hidden. -/
def falseCmd : Cmd :=
  { Fn := fun st _ => (st, some (.msg "false".data)), HideFailure := true }

/-- The `flag` builtin: toggle flag `e` or `x`. -/
def flagCmd : Cmd :=
  { Fn := fun st args =>
      match args with
      | _ :: f :: v :: _ =>
          let b := v = ['+']
          if f = ['e'] then ({ st with flagE := b }, none)
          else if f = ['x'] then ({ st with flagX := b }, none)
          else (st, some (.msg "unknown flag".data))
      | _ => (st, some (.msg "unknown flag".data)),
    Arg := ["f".data, "+-".data] }

/-- The `break` builtin (`weakStatus`). -/
def breakCmd : Cmd := { Fn := fun st _ => breakLoop st, weakStatus := true }

/-- The `return` builtin (`weakStatus`). -/
def returnCmd : Cmd := { Fn := fun st _ => returnFromFunc st, weakStatus := true }

/-- The `exit` builtin. -/
def exitCmd : Cmd := { Fn := fun st _ => ({ st with exitFlag := true }, none) }

/-- The builtin registry, restricted to the builtins the claims exercise
(the others are I/O-bound and unobserved here). -/
def builtinMap : CmdMap :=
  [("false".data, falseCmd), ("flag".data, flagCmd), ("break".data, breakCmd),
   ("return".data, returnCmd), ("exit".data, exitCmd)]

end Interp

theorem sanity_quote_cmd :
    Rc.QuoteCmd "a=b c".data =
      ('a' :: '=' :: Rc.squote :: "b c".data ++ [Rc.squote]) := by
  decide

theorem sanity_join : Rc.Join ["a".data, "b c".data] =
    (' ' :: 'a' :: ' ' :: Rc.squote :: "b c".data ++ [Rc.squote]) := by
  decide

/-- Claim C10: `EnvStack.Get` returns the list bound in the topmost frame
whose map contains the name, even when that list is empty; an empty-list
binding in an inner frame shadows outer bindings, and the result is empty
both when no frame contains the key and when the first frame containing
it binds the empty list. -/
theorem claim10_envstack_get_innermost :
    (∀ (s : Rc.EnvStack) (name : Rc.Str),
      Rc.EnvStack.Get s name =
        (match s.find? (fun m => (Rc.EnvMap.lookup m name).isSome) with
         | some m => (Rc.EnvMap.lookup m name).getD []
         | none => [])) ∧
    (∀ (inner : Rc.EnvMap) (rest : Rc.EnvStack) (name : Rc.Str),
      Rc.EnvMap.lookup inner name = some [] →
      Rc.EnvStack.Get (inner :: rest) name = []) := by
  constructor
  · intro s name
    induction s with
    | nil => rfl
    | cons m rest ih =>
        cases h : Rc.EnvMap.lookup m name with
        | none => simp [Rc.EnvStack.Get, List.find?, h, ih]
        | some v => simp [Rc.EnvStack.Get, List.find?, h]
  · intro inner rest name h
    simp [Rc.EnvStack.Get, h]

/-- Witness for C10 at a concrete stack: an inner empty-list binding
shadows an outer non-empty one. -/
theorem claim10_witness :
    Rc.EnvStack.Get [[(['x'], [])], [(['x'], [['a']])]] ['x'] = [] :=
  claim10_envstack_get_innermost.2 [(['x'], [])] [[(['x'], [['a']])]] ['x'] rfl

theorem foldl_sep_append (f : Rc.Str → Rc.Str) :
    ∀ (L : List Rc.Str) (acc : Rc.Str),
      L.foldl (fun js s => js ++ ' ' :: f s) acc
        = acc ++ (L.map fun s => ' ' :: f s).flatten := by
  intro L
  induction L with
  | nil => intro acc; simp
  | cons x rest ih => intro acc; simp [List.foldl_cons, ih]

theorem flatten_sep_eq_spaceSeparated (f : Rc.Str → Rc.Str) :
    ∀ (L : List Rc.Str), L ≠ [] →
      (L.map fun s => ' ' :: f s).flatten = ' ' :: Rc.spaceSeparated (L.map f) := by
  intro L
  induction L with
  | nil => intro h; exact absurd rfl h
  | cons x rest ih =>
      intro _
      cases rest with
      | nil => simp [Rc.spaceSeparated]
      | cons y t =>
          have h2 := ih (by simp)
          simp only [List.map_cons, List.flatten_cons] at h2 ⊢
          rw [show Rc.spaceSeparated (f x :: f y :: List.map f t)
                = f x ++ ' ' :: Rc.spaceSeparated (f y :: List.map f t) from rfl,
              ← h2]
          simp

/-- Claim C5 fails as stated: `Join` prepends a space before every
element, the first one included, so the result carries a leading
separator: `Join ["a"] = " a"`, not the claimed `"a"`. -/
theorem claim5_counterexample :
    Rc.Join [['a']] = [' ', 'a'] ∧
    Rc.spaceSeparated (List.map Rc.Quote [['a']]) = ['a'] ∧
    ([' ', 'a'] : Rc.Str) ≠ ['a'] := by
  refine ⟨by decide, by decide, by decide⟩

/-- Claim C5, amended: for every non-empty list, `Join` and `JoinCmd`
return the elements each in quoted form (`Quote` resp. `QuoteCmd`) with a
single space between consecutive elements, no trailing separator, and one
leading space. -/
theorem claim5_join_leading_space :
    ∀ L : List Rc.Str, L ≠ [] →
      Rc.Join L = ' ' :: Rc.spaceSeparated (L.map Rc.Quote) ∧
      Rc.JoinCmd L = ' ' :: Rc.spaceSeparated (L.map Rc.QuoteCmd) := by
  intro L h
  constructor
  · rw [Rc.Join, if_neg (by simpa using h), foldl_sep_append,
        flatten_sep_eq_spaceSeparated _ _ h]
    rfl
  · rw [Rc.JoinCmd, if_neg (by simpa using h), foldl_sep_append,
        flatten_sep_eq_spaceSeparated _ _ h]
    rfl

/-- Witness for the amended C5 at a concrete two-element list. -/
theorem claim5_witness :
    Rc.Join [['a'], "b c".data] =
      ' ' :: Rc.spaceSeparated [['a'], Rc.Quote "b c".data] := by
  have h := (claim5_join_leading_space [['a'], "b c".data] (by simp)).1
  simpa using h

/-- Claim C4 fails as stated: the variadic branch for `Opt` requires
`len(Opt) > 1`, so a descriptor whose `Opt` is exactly `["..."]` is
bounded by `a + 1`, not unbounded: here `Opt` ends with `"..."`, `Arg`
does not, the count 2 is at least the claimed minimum 0, yet the code
rejects it. -/
theorem claim4_counterexample :
    (["...".data] : List Rc.Str).getLast? = some "...".data ∧
    ([] : List Rc.Str).getLast? ≠ some "...".data ∧
    ([] : List Rc.Str).length ≤ 2 ∧
    Interp.arityWrong [] ["...".data] 2 = true := by
  refine ⟨rfl, by simp, by simp, by decide⟩

/-- Claim C4, amended: with `Arg` not ending in `"..."`, the minimum
accepted argument count is `a = len(Arg)`; the maximum is unbounded only
when `Opt` ends in `"..."` and has at least two entries, and is
`a + len(Opt)` otherwise (`Opt = ["..."]` included); a rejected count
leads to `setFnError` (so `lastOk` is false) and the command body is
never invoked (`invokeFound` collapses to `setFnError`, which does not
depend on `Fn`). -/
theorem claim4_arity_bounds :
    (∀ (Arg Opt : List Rc.Str) (n : Nat),
      Arg.getLast? ≠ some "...".data →
      ((1 < Opt.length ∧ Opt.getLast? = some "...".data →
          (Interp.arityWrong Arg Opt n = false ↔ Arg.length ≤ n)) ∧
       (¬ (1 < Opt.length ∧ Opt.getLast? = some "...".data) →
          (Interp.arityWrong Arg Opt n = false ↔
            Arg.length ≤ n ∧ n ≤ Arg.length + Opt.length)))) ∧
    (∀ (st : Interp.InterpState) (cmd : Interp.Cmd) (args : List Rc.Str)
        (assignments : Rc.EnvMap) (privEnv : Bool),
      Interp.arityWrong cmd.Arg cmd.Opt (args.length - 1) = true →
      Interp.invokeFound st cmd args assignments privEnv = Interp.setFnError st ∧
      (Interp.setFnError st).lastOk = false) := by
  constructor
  · intro Arg Opt n hArg
    have hA : ¬ (Arg.length > 0 ∧ Arg.getLast? = some "...".data) := by
      intro hc; exact hArg hc.2
    constructor
    · intro hOpt
      rw [Interp.arityWrong]
      simp only [if_neg hA, if_pos (show Opt.length > 1 ∧ Opt.getLast? = some "...".data
        from ⟨hOpt.1, hOpt.2⟩)]
      simp [Nat.not_lt]
    · intro hOpt
      rw [Interp.arityWrong]
      simp only [if_neg hA, if_neg (show ¬ (Opt.length > 1 ∧
        Opt.getLast? = some "...".data) from hOpt)]
      by_cases hgt : n > Arg.length + Opt.length
      · simp only [if_pos hgt]
        constructor
        · intro h; exact absurd h (by simp)
        · intro h; omega
      · simp only [if_neg hgt]
        simp [Nat.not_lt]
        omega
  · intro st cmd args assignments privEnv h
    refine ⟨?_, ?_⟩
    · rw [Interp.invokeFound, if_pos h]
    · rw [Interp.setFnError]
      split <;> rfl

/-- Witness for the amended C4: a two-entry variadic `Opt` accepts five
arguments, and a wrong count collapses the invocation to `setFnError`. -/
theorem claim4_witness :
    Interp.arityWrong [] [['x'], "...".data] 5 = false ∧
    Interp.invokeFound {} { Fn := fun st _ => (st, none), Arg := [['x']] }
        [['c']] [] false = Interp.setFnError {} := by
  refine ⟨?_, ?_⟩
  · exact ((claim4_arity_bounds.1 [] [['x'], "...".data] 5 (by simp)).1
      (by refine ⟨by simp, by simp⟩)).mpr (by simp)
  · exact (claim4_arity_bounds.2 {} { Fn := fun st _ => (st, none), Arg := [['x']] }
      [['c']] [] false (by decide)).1

theorem setFnError_lastOk (st : Interp.InterpState) :
    (Interp.setFnError st).lastOk = false := by
  rw [Interp.setFnError]
  dsimp only
  split <;> rfl

theorem runCmd_lastOk_eq (st : Interp.InterpState) (cmd : Interp.Cmd)
    (args : List Rc.Str) (assignments : Rc.EnvMap) (privEnv : Bool) :
    (Interp.runCmd st cmd args assignments privEnv).lastOk =
      (if cmd.weakStatus then
        (if (Interp.runPre st cmd args assignments privEnv).2.isSome
            ∧ !cmd.HideFailure then false
         else (Interp.runPre st cmd args assignments privEnv).1.lastOk)
       else (Interp.runPre st cmd args assignments privEnv).2.isNone) := by
  rw [Interp.runCmd]
  generalize Interp.runPre st cmd args assignments privEnv = res
  obtain ⟨st1, err⟩ := res
  cases hw : cmd.weakStatus <;> cases herr : err <;> cases hh : cmd.HideFailure <;>
    cases privEnv <;>
    simp [Interp.setFnError] <;> split <;> rfl

/-- Claim C7 fails as stated for weak-status commands: when the body of a
weak-status command fails and the failure is not hidden, the error
reporting path (`setFnError`) still clears `lastOk`.  Concretely, `break`
(weak status) run at top level fails with "not within a loop" and flips
`lastOk` from true to false. -/
theorem claim7_counterexample :
    Interp.breakCmd.weakStatus = true ∧
    ({} : Interp.InterpState).lastOk = true ∧
    (Interp.runCmd {} Interp.breakCmd ["break".data] [] false).lastOk = false := by
  refine ⟨rfl, rfl, by decide⟩

/-- Claim C7, amended: after the dispatch loop runs a command without the
`weakStatus` flag, `lastOk` equals "the body returned no error"; with
`weakStatus`, `lastOk` is left as the body left it unless the body failed
and the failure is not hidden, in which case error reporting clears it. -/
theorem claim7_lastok_dispatch :
    ∀ (st : Interp.InterpState) (cmd : Interp.Cmd) (args : List Rc.Str)
      (assignments : Rc.EnvMap) (privEnv : Bool),
      (cmd.weakStatus = false →
        (Interp.runCmd st cmd args assignments privEnv).lastOk =
          (Interp.runPre st cmd args assignments privEnv).2.isNone) ∧
      (cmd.weakStatus = true →
        (((Interp.runPre st cmd args assignments privEnv).2.isSome ∧
            cmd.HideFailure = false →
           (Interp.runCmd st cmd args assignments privEnv).lastOk = false) ∧
         ((Interp.runPre st cmd args assignments privEnv).2 = none ∨
            cmd.HideFailure = true →
           (Interp.runCmd st cmd args assignments privEnv).lastOk =
             (Interp.runPre st cmd args assignments privEnv).1.lastOk))) := by
  intro st cmd args assignments privEnv
  rw [runCmd_lastOk_eq]
  constructor
  · intro hw; rw [hw]; simp
  · intro hw
    rw [hw]
    constructor
    · intro hfail
      simp [hfail.1, hfail.2]
    · intro hok
      rcases hok with hnone | hhide
      · simp [hnone]
      · simp [hhide]

/-- Witness for the amended C7: the `false` builtin (not weak status,
failure hidden) leaves `lastOk = false`; the `exit` builtin succeeds and
leaves `lastOk = true`. -/
theorem claim7_witness :
    (Interp.runCmd {} Interp.falseCmd ["false".data] [] false).lastOk = false ∧
    (Interp.runCmd {} Interp.exitCmd ["exit".data] [] false).lastOk = true := by
  constructor
  · rw [(claim7_lastok_dispatch {} Interp.falseCmd ["false".data] [] false).1 rfl]
    rfl
  · rw [(claim7_lastok_dispatch {} Interp.exitCmd ["exit".data] [] false).1 rfl]
    rfl

/-- Claim C9 fails as stated: a line such as `a=b < f` parses to zero
fields with a non-empty assignment prefix, but its `<` redirection fails
redirection setup, so `lastOk` is cleared and the assignments are not
inserted. -/
theorem claim9_counterexample :
    (Rc.ParseCmdLine (some (Rc.EnvStack.Get [[]])) "a=b < f".data).map
        (fun c => (c.Fields, c.Assignments.isEmpty)) = .ok ([], false) ∧
    ({ env := [[]] } : Interp.InterpState).lastOk = true ∧
    (Interp.processLine [] [] { env := [[]] } "a=b < f".data).lastOk = false ∧
    (Interp.processLine [] [] { env := [[]] } "a=b < f".data).env = [[]] := by
  decide

/-- Claim C9, amended: for every input line that parses to zero fields
but a non-empty assignment prefix and carries no failing redirection
(no redirection, `>`, or `>>`), the assignments are inserted into the
topmost environment frame, no command is looked up or invoked (the
result does not depend on the command maps), `lastOk` keeps its value,
and the input stack, function map, flags, exit flag and prompt are
unchanged (only the redirection file cache may gain an entry). -/
theorem claim9_assignment_only_line :
    ∀ (cmdMap builtin : Interp.CmdMap) (st : Interp.InterpState)
      (line : Rc.Str) (c : Rc.CmdLine),
      Rc.ParseCmdLine (some st.env.Get)
          (if st.Prompt ≠ [] then Interp.stripPrompt st.Prompt line else line)
        = .ok c →
      c.Fields = [] →
      c.Assignments ≠ [] →
      (c.Redir.Typ = [] ∨ c.Redir.Typ = ['>'] ∨ c.Redir.Typ = ['>', '>']) →
      ((Interp.processLine cmdMap builtin st line).env
          = st.env.Insert c.Assignments ∧
       (∀ top rest, st.env = top :: rest →
          (Interp.processLine cmdMap builtin st line).env
            = Rc.EnvMap.Insert top c.Assignments :: rest) ∧
       (Interp.processLine cmdMap builtin st line).lastOk = st.lastOk ∧
       (Interp.processLine cmdMap builtin st line).cur = st.cur ∧
       (Interp.processLine cmdMap builtin st line).inputStack = st.inputStack ∧
       (Interp.processLine cmdMap builtin st line).funcMap = st.funcMap ∧
       (Interp.processLine cmdMap builtin st line).exitFlag = st.exitFlag ∧
       (Interp.processLine cmdMap builtin st line).flagE = st.flagE ∧
       (Interp.processLine cmdMap builtin st line).flagX = st.flagX ∧
       (Interp.processLine cmdMap builtin st line).Prompt = st.Prompt ∧
       (Interp.processLine cmdMap builtin st line).savedPrompt
          = st.savedPrompt) := by
  intro cmdMap builtin st line c hparse hfields hassign hredir
  have hne : c.Assignments.isEmpty = false := by
    cases h : c.Assignments with
    | nil => exact absurd h hassign
    | cons a l => simp
  have key : ∃ rf, Interp.processLine cmdMap builtin st line =
      { st with env := st.env.Insert c.Assignments, redirFiles := rf } := by
    rcases hredir with h | h | h
    · refine ⟨st.redirFiles, ?_⟩
      simp only [Interp.processLine, hparse, h, hfields, hne]
      simp
    · by_cases hc : c.Redir.Filename ∈ st.redirFiles
      · refine ⟨st.redirFiles, ?_⟩
        simp only [Interp.processLine, hparse, h, hfields, hne, Interp.redirect]
        simp [hc]
      · refine ⟨c.Redir.Filename :: st.redirFiles, ?_⟩
        simp only [Interp.processLine, hparse, h, hfields, hne, Interp.redirect]
        simp [hc]
    · by_cases hc : c.Redir.Filename ∈ st.redirFiles
      · refine ⟨st.redirFiles, ?_⟩
        simp only [Interp.processLine, hparse, h, hfields, hne, Interp.redirect]
        simp [hc]
      · refine ⟨c.Redir.Filename :: st.redirFiles, ?_⟩
        simp only [Interp.processLine, hparse, h, hfields, hne, Interp.redirect]
        simp [hc]
  obtain ⟨rf, hkey⟩ := key
  rw [hkey]
  refine ⟨rfl, ?_, rfl, rfl, rfl, rfl, rfl, rfl, rfl, rfl, rfl⟩
  intro top rest henv
  rw [henv]
  simp [Rc.EnvStack.Insert]

/-- Witness for the amended C9: inserting `a=b` on a line of its own. -/
theorem claim9_witness :
    (Interp.processLine [] [] { env := [[]] } "a=b".data).env
      = [[(['a'], [['b']])]] ∧
    (Interp.processLine [] [] { env := [[]] } "a=b".data).lastOk = true := by
  have h := claim9_assignment_only_line [] [] { env := [[]] } "a=b".data
    { Assignments := [(['a'], [['b']])], Fields := [], Redir := ⟨[], []⟩ }
    (by decide) rfl (by simp) (Or.inl rfl)
  refine ⟨?_, ?_⟩
  · rw [h.1]; decide
  · rw [h.2.2.1]

theorem groupFields_strs (l : List Rc.Str) (rest : List Rc.Token) :
    Rc.groupFields (l.map Rc.Token.str ++ rest) = l ++ Rc.groupFields rest := by
  induction l with
  | nil => simp
  | cons x t ih => simp [Rc.groupFields, Rc.Token.toString, ih]

/-- Claim C8: expanding `$#name` for an unset name yields the single
field "0"; `$1` with `*` empty yields one empty-string field; and
`$var(0)` yields one empty-string field regardless of `var`'s value. -/
theorem claim8_expansion_boundaries :
    ∀ g : Rc.Str → List Rc.Str,
      (g ['n', 'a', 'm', 'e'] = [] →
        (Rc.ParseCmdLine (some g) ['$', '#', 'n', 'a', 'm', 'e']).map (·.Fields)
          = .ok [['0']]) ∧
      (g ['*'] = [] →
        (Rc.ParseCmdLine (some g) ['$', '1']).map (·.Fields) = .ok [[]]) ∧
      ((Rc.ParseCmdLine (some g) ['$', 'v', 'a', 'r', '(', '0', ')']).map (·.Fields)
          = .ok [[]]) := by
  intro g
  refine ⟨?_, ?_, ?_⟩
  · intro hg
    rw [Rc.ParseCmdLine,
      show Rc.doScan ['$', '#', 'n', 'a', 'm', 'e'] true
        = .ok ([Rc.Token.varRef ['$', '#', 'n', 'a', 'm', 'e'] true], 0) from rfl]
    simp [Rc.expandList, Rc.expandEnv, hg, Rc.Token.setString, Rc.Token.isNil,
      Rc.flattenStringLists, Rc.groupFields, Rc.Token.toString, Rc.groupRedirection]
    rfl
  · intro hg
    rw [Rc.ParseCmdLine,
      show Rc.doScan ['$', '1'] true
        = .ok ([Rc.Token.varRef ['$', '1'] false], 0) from rfl]
    simp [Rc.expandList, Rc.expandEnv, hg, Rc.Token.setString, Rc.Token.isNil,
      Rc.isArgRef, Rc.digitsToNat, Rc.arrIdxMatch,
      Rc.flattenStringLists, Rc.groupFields, Rc.Token.toString, Rc.groupRedirection]
    rfl
  · rw [Rc.ParseCmdLine,
      show Rc.doScan ['$', 'v', 'a', 'r', '(', '0', ')'] true
        = .ok ([Rc.Token.varRef ['$', 'v', 'a', 'r', '(', '0', ')'] false], 0) from rfl]
    simp [Rc.expandList, Rc.expandEnv, Rc.Token.setString, Rc.Token.isNil,
      Rc.isArgRef, Rc.digitsToNat, Rc.arrIdxMatch,
      Rc.flattenStringLists, Rc.groupFields, Rc.Token.toString, Rc.groupRedirection]
    rfl

/-- Witness for C8 with the empty environment. -/
theorem claim8_witness :
    ((Rc.ParseCmdLine (some fun _ => []) ['$', '#', 'n', 'a', 'm', 'e']).map
        (·.Fields) = .ok [['0']]) ∧
    ((Rc.ParseCmdLine (some fun _ => []) ['$', '1']).map (·.Fields) = .ok [[]]) := by
  exact ⟨(claim8_expansion_boundaries (fun _ => [])).1 rfl,
    (claim8_expansion_boundaries (fun _ => [])).2.1 rfl⟩

/-- Claim C2: a top-level `$v` reference expands in place to exactly the
value list of `v`: an empty list contributes no field at all, a
one-element list exactly one field, and a k-element list exactly k
fields. -/
theorem claim2_list_expansion :
    ∀ g : Rc.Str → List Rc.Str,
      (Rc.ParseCmdLine (some g) ['a', ' ', '$', 'v', ' ', 'b']).map (·.Fields)
        = .ok (['a'] :: (g ['v'] ++ [['b']])) := by
  intro g
  rw [Rc.ParseCmdLine,
    show Rc.doScan ['a', ' ', '$', 'v', ' ', 'b'] true
      = .ok ([Rc.Token.str ['a'], Rc.Token.varRef ['$', 'v'] false,
              Rc.Token.str ['b']], 0) from rfl]
  cases hv : g ['v'] with
  | nil =>
      simp [Rc.expandList, Rc.expandEnv, hv, Rc.Token.setString, Rc.Token.isNil,
        Rc.isArgRef, Rc.arrIdxMatch,
        Rc.flattenStringLists, Rc.groupFields, Rc.Token.toString, Rc.groupRedirection]
      rfl
  | cons x tail =>
      cases tail with
      | nil =>
          simp [Rc.expandList, Rc.expandEnv, hv, Rc.Token.setString, Rc.Token.isNil,
            Rc.isArgRef, Rc.arrIdxMatch,
            Rc.flattenStringLists, Rc.groupFields, Rc.Token.toString,
            Rc.groupRedirection]
          rfl
      | cons y t =>
          simp [Rc.expandList, Rc.expandEnv, hv, Rc.Token.setString, Rc.Token.isNil,
            Rc.isArgRef, Rc.arrIdxMatch,
            Rc.flattenStringLists, Rc.groupFields, Rc.Token.toString,
            Rc.groupRedirection, groupFields_strs]
          rfl

/-- Claim C1 fails as stated: at nominal end (input stack exhausted at
top level) `Process` returns ErrLastCmdFailed whenever the session ends
with `lastOk = false`, regardless of flag `e`.  Here a session running
only `false` with flag `e` unset returns ErrLastCmdFailed, where the
claim requires nil. -/
theorem claim1_counterexample :
    (let st0 : Interp.InterpState := { cur := { lines := ["false".data] }, env := [[]] }
     let res := Interp.Process [] Interp.builtinMap 2 st0
     st0.flagE = false ∧ res.1.flagE = false ∧ res.1.lastOk = false ∧
     res.2 = some (some .lastCmdFailed) ∧ res.2 ≠ some none) := by
  refine ⟨rfl, by decide, by decide, by decide, by decide⟩

/-- Claim C1, amended: when `Process` ends because the input stack is
exhausted at top level (nominal end, no scanner error), it returns
ErrLastCmdFailed exactly when `lastOk` is false, independent of flag `e`;
the flag-`e` test applies only on the exit-flag path, which returns
ErrLastCmdFailed exactly when flag `e` is set and `lastOk` is false. -/
theorem claim1_process_return :
    ∀ (cmdMap builtin : Interp.CmdMap) (fuel : Nat) (st : Interp.InterpState),
      (st.exitFlag = false → st.cur.lines = [] → st.inputStack = [] →
        Interp.Process cmdMap builtin (fuel + 1) st =
          (st, some (if st.lastOk = false then some .lastCmdFailed else none))) ∧
      (st.exitFlag = true →
        Interp.Process cmdMap builtin (fuel + 1) st =
          (st, some (if st.flagE = true ∧ st.lastOk = false
                     then some .lastCmdFailed else none))) := by
  intro cmdMap builtin fuel st
  constructor
  · intro hexit hlines hstack
    rw [Interp.Process, Interp.ProcessAux]
    rw [hexit, hlines, hstack]
    simp
  · intro hexit
    rw [Interp.Process, Interp.ProcessAux, hexit]
    simp

/-- Witness for the amended C1: a session already at nominal end with
`lastOk = false` and flag `e` unset returns ErrLastCmdFailed. -/
theorem claim1_witness :
    Interp.Process [] [] 1 ({ lastOk := false } : Interp.InterpState) =
      ({ lastOk := false }, some (some .lastCmdFailed)) := by
  have h := (claim1_process_return [] [] 0 { lastOk := false }).1 rfl rfl rfl
  rw [h]
  rfl

theorem popStack_inputStack (st : Interp.InterpState) :
    (Interp.popStack st).inputStack = st.inputStack.tail := by
  rw [Interp.popStack]
  rcases ha : st.cur.savedArgs with _ | a <;>
    rcases hp : st.cur.popEnv <;>
    rcases hs : st.inputStack with _ | ⟨top, rest⟩ <;>
    simp [ha, hp, hs] <;>
    split <;> simp

/-- Claim C3 fails in its function clause: when `break` runs inside a
function with no enclosing loop, the code calls `popStackAll`, unwinding
the ENTIRE input stack (here the sourced-file frame beneath the function
frame is also popped and the root becomes current), not just up to the
function's own frame. -/
theorem claim3_counterexample :
    (let func : Interp.StackEntry := { isFunc := true }
     let file : Interp.StackEntry := { lines := [['x']] }
     let st : Interp.InterpState := { cur := func, inputStack := [file, {}] }
     let res := Interp.breakLoop st
     res.2 = some (.msg "not within a loop".data) ∧
     res.1.inputStack = [] ∧
     res.1.cur = ({} : Interp.StackEntry)) := by
  refine ⟨by decide, by decide, by decide⟩

/-- Claim C3, amended: `break` pops frames one at a time until the
innermost loop frame has been popped — (a) a current loop frame is popped
and `break` succeeds, (d) a current plain frame is popped and the search
continues below; (c) if the stack runs out with no loop frame, `break`
fails with "not within a loop"; (b) when a function frame with no
enclosing loop is reached, `break` fails with the same error and the
WHOLE input stack is unwound (`popStackAll`), not merely up to the
function's own frame. -/
theorem claim3_break_unwinding :
    ∀ st : Interp.InterpState,
      (st.cur.isLoop = true → st.cur.isFunc = false → st.inputStack ≠ [] →
        Interp.breakLoop st = (Interp.popStack st, none)) ∧
      (st.cur.isLoop = false → st.cur.isFunc = true →
        Interp.breakLoop st =
          (Interp.popStackAll st, some (.msg "not within a loop".data))) ∧
      (st.cur.isLoop = false → st.cur.isFunc = false → st.inputStack = [] →
        Interp.breakLoop st = (st, some (.msg "not within a loop".data))) ∧
      (st.cur.isLoop = false → st.cur.isFunc = false → st.inputStack ≠ [] →
        Interp.breakLoop st = Interp.breakLoop (Interp.popStack st)) := by
  intro st
  refine ⟨?_, ?_, ?_, ?_⟩
  · intro hl hf hs
    rw [Interp.breakLoop, Interp.breakLoopAux]
    simp [hl, hf, hs]
  · intro hl hf
    rw [Interp.breakLoop, Interp.breakLoopAux]
    simp [hl, hf]
  · intro hl hf hs
    rw [Interp.breakLoop, Interp.breakLoopAux]
    simp [hl, hf, hs]
  · intro hl hf hs
    rw [Interp.breakLoop, Interp.breakLoopAux]
    simp only [hl, hf]
    rcases hlen : st.inputStack with _ | ⟨top, rest⟩
    · exact absurd hlen hs
    · simp [hlen, Interp.breakLoop, popStack_inputStack, hlen]

/-- Witness for the amended C3: `break` inside a loop frame pops exactly
that frame; `break` with a plain frame above the root defers to the
popped state. -/
theorem claim3_witness :
    (let loopFrame : Interp.StackEntry := { repetition := some { n := 3 } }
     let st : Interp.InterpState := { cur := loopFrame, inputStack := [{}] }
     Interp.breakLoop st = (Interp.popStack st, none)) ∧
    (let plain : Interp.StackEntry := { lines := [['y']] }
     let st : Interp.InterpState := { cur := plain, inputStack := [{}] }
     Interp.breakLoop st = Interp.breakLoop (Interp.popStack st)) := by
  constructor
  · exact (claim3_break_unwinding _).1 rfl rfl (by simp)
  · exact (claim3_break_unwinding _).2.2.2 rfl rfl (by simp)

set_option maxHeartbeats 1000000 in
theorem doStep_false_shape (r : Char) (st : Rc.DoState) :
    ∃ st2, Rc.doStep false r st = .cont st2 := by
  obtain ⟨F, fld, tk, p, q, w, ca, sa, na⟩ := st
  rw [Rc.doStep]
  by_cases h1 : r = Rc.squote <;>
    cases q <;>
    cases w <;>
    by_cases hw : (r = ' ' ∨ r = '\t' ∨ r = '\r' ∨ r = '\n') <;>
    simp only [h1, hw, if_true, if_false, Bool.not_true, Bool.not_false,
      if_pos, if_neg, ite_true, ite_false, eq_self_iff_true, not_false_iff,
      decide_True, decide_False] <;>
    exact ⟨_, rfl⟩

theorem doStep_false_cont (r : Char) (st : Rc.DoState) :
    Rc.doStep false r st = .cont (Rc.tokStep r st) := by
  obtain ⟨st2, h⟩ := doStep_false_shape r st
  rw [h, Rc.tokStep, h]

theorem doLoop_false_eq (cs : List Char) :
    ∀ st : Rc.DoState,
      Rc.doLoop false cs st =
        .ok ((Rc.tokSteps cs st).addField.fields,
             (Rc.tokSteps cs st).addField.nAssign) := by
  induction cs with
  | nil => intro st; rfl
  | cons r rest ih =>
      intro st
      rw [Rc.doLoop, doStep_false_cont, Rc.tokSteps]
      exact ih (Rc.tokStep r st)

theorem tokSteps_append (a b : List Char) (st : Rc.DoState) :
    Rc.tokSteps (a ++ b) st = Rc.tokSteps b (Rc.tokSteps a st) := by
  induction a generalizing st with
  | nil => rfl
  | cons r rest ih => rw [List.cons_append, Rc.tokSteps, Rc.tokSteps, ih]

theorem plainChar_spec (c : Char) (hc : Rc.plainChar c = true) :
    c ≠ Rc.squote ∧ c ≠ ' ' ∧ c ≠ '\t' ∧ c ≠ '\r' ∧ c ≠ '\n' := by
  rw [Rc.plainChar] at hc
  simp at hc
  exact ⟨hc.1.1.1.1, hc.1.1.1.2, hc.1.1.2, hc.1.2, hc.2⟩

theorem tokStep_space_clean (F : List Rc.Token) (b : Bool) :
    Rc.tokStep ' ' (Rc.cleanState F b) = Rc.cleanState F b := rfl

theorem tokStep_plain_clean (c : Char) (F : List Rc.Token) (b : Bool)
    (hc : Rc.plainChar c = true) :
    Rc.tokStep c (Rc.cleanState F b) = Rc.wordState F b [c] := by
  obtain ⟨h1, h2, h3, h4, h5⟩ := plainChar_spec c hc
  rw [Rc.tokStep, Rc.doStep]
  simp [h1, h2, h3, h4, h5, Rc.cleanState, Rc.wordState]

theorem tokStep_plain_word (c : Char) (F : List Rc.Token) (b : Bool) (p : Rc.Str)
    (hc : Rc.plainChar c = true) :
    Rc.tokStep c (Rc.wordState F b p) = Rc.wordState F b (p ++ [c]) := by
  obtain ⟨h1, h2, h3, h4, h5⟩ := plainChar_spec c hc
  rw [Rc.tokStep, Rc.doStep]
  simp [h1, h2, h3, h4, h5, Rc.wordState]

theorem tokStep_space_word (F : List Rc.Token) (b : Bool) (p : Rc.Str) :
    Rc.tokStep ' ' (Rc.wordState F b p) = Rc.cleanState (F ++ [.str p]) false := by
  have hsp : (' ' : Char) ≠ Rc.squote := by decide
  rw [Rc.tokStep, Rc.doStep]
  cases b <;>
    simp [hsp, Rc.wordState, Rc.cleanState, Rc.DoState.addField, Rc.DoState.setText]

theorem tokStep_quote_clean (F : List Rc.Token) (b : Bool) :
    Rc.tokStep Rc.squote (Rc.cleanState F b) = Rc.quotedState F b [] [] := rfl

theorem tokStep_inq_plain (c : Char) (F : List Rc.Token) (b : Bool)
    (fld : List Rc.Token) (p : Rc.Str) (hc : c ≠ Rc.squote) :
    Rc.tokStep c (Rc.quotedState F b fld p)
      = Rc.quotedState F b fld (p ++ [c]) := by
  rw [Rc.tokStep, Rc.doStep]
  simp [hc, Rc.quotedState]

theorem tokStep_close (F : List Rc.Token) (b : Bool) (fld : List Rc.Token)
    (p : Rc.Str) (hfld : fld = [] ∨ ∃ q, fld = [.str q]) :
    Rc.tokStep Rc.squote (Rc.quotedState F b fld p)
      = Rc.loadedQState F b (Rc.qcontent fld p) := by
  rcases hfld with h | ⟨q, h⟩ <;> subst h <;>
    rw [Rc.tokStep, Rc.doStep] <;>
    simp [Rc.quotedState, Rc.loadedQState, Rc.qcontent, Rc.DoState.flushToken,
      Rc.DoState.setText]

theorem tokStep_reopen (F : List Rc.Token) (b : Bool) (s : Rc.Str) :
    Rc.tokStep Rc.squote (Rc.loadedQState F b s)
      = Rc.quotedState F b [.str (s ++ [Rc.squote])] [] := by
  rw [Rc.tokStep, Rc.doStep]
  simp [Rc.loadedQState, Rc.quotedState, Rc.DoState.flushToken, Rc.DoState.setText]

theorem tokStep_space_loadedQ (F : List Rc.Token) (b : Bool) (s : Rc.Str) :
    Rc.tokStep ' ' (Rc.loadedQState F b s)
      = Rc.cleanState (F ++ [.str s]) false := by
  have hsp : (' ' : Char) ≠ Rc.squote := by decide
  rw [Rc.tokStep, Rc.doStep]
  cases b <;>
    simp [hsp, Rc.loadedQState, Rc.cleanState, Rc.DoState.addField,
      Rc.DoState.setText]

theorem addField_word (F : List Rc.Token) (b : Bool) (p : Rc.Str) :
    (Rc.wordState F b p).addField.fields = F ++ [.str p] := by
  cases b <;> simp [Rc.wordState, Rc.DoState.addField, Rc.DoState.setText]

theorem addField_loadedQ (F : List Rc.Token) (b : Bool) (s : Rc.Str) :
    (Rc.loadedQState F b s).addField.fields = F ++ [.str s] := by
  cases b <;> simp [Rc.loadedQState, Rc.DoState.addField, Rc.DoState.setText]

theorem quoteLoop_no_unquoted (s : Rc.Str) :
    ∀ (qp : Bool) (q p : Rc.Str),
      Rc.quoteLoop [] s qp q p =
        if p ++ s = [] then q
        else Rc.addPart (qp || s.any Rc.NeedsQuote) q (p ++ s) := by
  induction s with
  | nil => intro qp q p; rw [Rc.quoteLoop]; simp
  | cons c cs ih =>
      intro qp q p
      rw [Rc.quoteLoop]
      simp only [ne_eq, not_true_eq_false, false_and, if_false]
      rw [ih]
      simp [List.any_cons, Bool.or_assoc, List.append_assoc]

theorem Quote_eq (s : Rc.Str) :
    Rc.Quote s =
      if s = [] then []
      else if s.any Rc.NeedsQuote then
        Rc.squote :: (Rc.escQuotes s ++ [Rc.squote])
      else s := by
  rw [Rc.Quote, Rc.quote, quoteLoop_no_unquoted]
  by_cases hs : s = [] <;> by_cases ha : s.any Rc.NeedsQuote <;>
    simp [hs, ha, Rc.addPart]

theorem word_run (w : Rc.Str) :
    ∀ (F : List Rc.Token) (b : Bool) (p : Rc.Str),
      (∀ c ∈ w, Rc.plainChar c = true) →
      Rc.tokSteps w (Rc.wordState F b p) = Rc.wordState F b (p ++ w) := by
  induction w with
  | nil => intro F b p _; simp [Rc.tokSteps]
  | cons c cs ih =>
      intro F b p hp
      rw [Rc.tokSteps, tokStep_plain_word c F b p (hp c (by simp))]
      rw [ih F b (p ++ [c]) (fun x hx => hp x (by simp [hx]))]
      simp

theorem esc_run (s : Rc.Str) :
    ∀ (F : List Rc.Token) (b : Bool) (fld : List Rc.Token) (p : Rc.Str),
      (fld = [] ∨ ∃ q, fld = [.str q]) →
      ∃ fld2 p2,
        Rc.tokSteps (Rc.escQuotes s) (Rc.quotedState F b fld p)
            = Rc.quotedState F b fld2 p2 ∧
        (fld2 = [] ∨ ∃ q2, fld2 = [.str q2]) ∧
        Rc.qcontent fld2 p2 = Rc.qcontent fld p ++ s := by
  induction s with
  | nil => intro F b fld p h; exact ⟨fld, p, rfl, h, by simp⟩
  | cons c cs ih =>
      intro F b fld p h
      by_cases hc : c = Rc.squote
      · subst hc
        rw [show Rc.escQuotes (Rc.squote :: cs)
              = Rc.squote :: Rc.squote :: Rc.escQuotes cs from by
            rw [Rc.escQuotes]; simp]
        rw [Rc.tokSteps, tokStep_close F b fld p h, Rc.tokSteps, tokStep_reopen]
        obtain ⟨fld2, p2, heq, hsh, hcont⟩ :=
          ih F b [.str (Rc.qcontent fld p ++ [Rc.squote])] [] (Or.inr ⟨_, rfl⟩)
        refine ⟨fld2, p2, heq, hsh, ?_⟩
        rw [hcont]
        simp [Rc.qcontent]
      · rw [show Rc.escQuotes (c :: cs) = c :: Rc.escQuotes cs from by
            rw [Rc.escQuotes]; simp [hc]]
        rw [Rc.tokSteps, tokStep_inq_plain c F b fld p hc]
        obtain ⟨fld2, p2, heq, hsh, hcont⟩ := ih F b fld (p ++ [c]) h
        refine ⟨fld2, p2, heq, hsh, ?_⟩
        rw [hcont]
        rcases h with h | ⟨q, h⟩ <;> subst h <;> simp [Rc.qcontent]

theorem plain_of_not_needsQuote (c : Char) (h : Rc.NeedsQuote c = false) :
    Rc.plainChar c = true := by
  rw [Rc.plainChar]
  simp only [Bool.not_eq_true', Bool.or_eq_false_iff, beq_eq_false_iff_ne, ne_eq]
  refine ⟨⟨⟨⟨?_, ?_⟩, ?_⟩, ?_⟩, ?_⟩ <;> intro he <;> subst he <;> revert h <;> decide

theorem quote_run (s : Rc.Str) (F : List Rc.Token) (b : Bool) (hs : s ≠ []) :
    Rc.tokSteps (Rc.Quote s) (Rc.cleanState F b) = Rc.wordState F b s ∨
    Rc.tokSteps (Rc.Quote s) (Rc.cleanState F b) = Rc.loadedQState F b s := by
  rw [Quote_eq, if_neg hs]
  by_cases ha : s.any Rc.NeedsQuote
  · right
    rw [if_pos ha]
    rw [Rc.tokSteps, tokStep_quote_clean, tokSteps_append]
    obtain ⟨fld2, p2, heq, hsh, hcont⟩ := esc_run s F b [] [] (Or.inl rfl)
    rw [heq, Rc.tokSteps, tokStep_close F b fld2 p2 hsh, hcont]
    rw [show Rc.qcontent [] [] ++ s = s from by simp [Rc.qcontent]]
    rfl
  · left
    rw [if_neg ha]
    have hplain : ∀ c ∈ s, Rc.plainChar c = true := by
      intro c hcs
      refine plain_of_not_needsQuote c ?_
      rcases hnq : Rc.NeedsQuote c with _ | _
      · rfl
      · exact absurd (List.any_eq_true.mpr ⟨c, hcs, hnq⟩) ha
    cases s with
    | nil => exact absurd rfl hs
    | cons c cs =>
        rw [Rc.tokSteps, tokStep_plain_clean c F b (hplain c (by simp))]
        rw [word_run cs F b [c] (fun x hx => hplain x (by simp [hx]))]
        simp

theorem after_run (L : List Rc.Str) :
    ∀ (st : Rc.DoState) (F : List Rc.Token) (b : Bool) (s : Rc.Str),
      (st = Rc.wordState F b s ∨ st = Rc.loadedQState F b s) →
      (∀ x ∈ L, x ≠ []) →
      (Rc.tokSteps ((L.map (fun x => ' ' :: Rc.Quote x)).flatten) st).addField.fields
        = F ++ [.str s] ++ L.map Rc.Token.str := by
  induction L with
  | nil =>
      intro st F b s hld _
      rcases hld with h | h <;> subst h <;>
        simp [Rc.tokSteps, addField_word, addField_loadedQ]
  | cons x rest ih =>
      intro st F b s hld hne
      simp only [List.map_cons, List.flatten_cons, List.cons_append]
      rw [Rc.tokSteps]
      have hsp : Rc.tokStep ' ' st = Rc.cleanState (F ++ [.str s]) false := by
        rcases hld with h | h <;> subst h
        · exact tokStep_space_word F b s
        · exact tokStep_space_loadedQ F b s
      rw [hsp, tokSteps_append]
      have hq := quote_run x (F ++ [.str s]) false (hne x (by simp))
      have hrest : ∀ y ∈ rest, y ≠ [] := fun y hy => hne y (by simp [hy])
      rcases hq with h | h <;> rw [h]
      · rw [ih (Rc.wordState (F ++ [Rc.Token.str s]) false x)
            (F ++ [Rc.Token.str s]) false x (Or.inl rfl) hrest]
        simp
      · rw [ih (Rc.loadedQState (F ++ [Rc.Token.str s]) false x)
            (F ++ [Rc.Token.str s]) false x (Or.inr rfl) hrest]
        simp

/-- Claim C6 fails as stated for empty-string elements: quoting the empty
string yields the empty string, so `Join [""] = " "` tokenizes back to
`[]`, not `[""]`. -/
theorem claim6_counterexample :
    Rc.Tokenize (Rc.Join [[]]) = [] ∧ ([] : List Rc.Str) ≠ [[]] := by
  refine ⟨by decide, by decide⟩

/-- Claim C6, amended: for every list of non-empty strings `L`,
`Tokenize (Join L) = L` — elements containing whitespace, quote
characters or other special characters included.  (`Quote ""` is `""`,
so an empty-string element vanishes and the round trip fails for it.) -/
theorem claim6_roundtrip :
    ∀ L : List Rc.Str, (∀ s ∈ L, s ≠ []) → Rc.Tokenize (Rc.Join L) = L := by
  intro L hL
  cases L with
  | nil => rfl
  | cons s rest =>
      rw [Rc.Join, if_neg (by simp), foldl_sep_append Rc.Quote]
      rw [Rc.Tokenize, Rc.doScan, doLoop_false_eq]
      simp only [List.nil_append, List.map_cons, List.flatten_cons,
        List.cons_append]
      rw [show ({} : Rc.DoState) = Rc.cleanState [] true from rfl]
      rw [Rc.tokSteps, tokStep_space_clean, tokSteps_append]
      have hq := quote_run s [] true (hL s (by simp))
      have hrest : ∀ y ∈ rest, y ≠ [] := fun y hy => hL y (by simp [hy])
      rcases hq with h | h <;> rw [h]
      · rw [after_run rest (Rc.wordState [] true s) [] true s (Or.inl rfl) hrest]
        rw [show ([] : List Rc.Token) ++ [.str s] ++ rest.map Rc.Token.str
              = (s :: rest).map Rc.Token.str ++ [] from by simp]
        rw [groupFields_strs]
        simp [Rc.groupFields]
      · rw [after_run rest (Rc.loadedQState [] true s) [] true s (Or.inr rfl) hrest]
        rw [show ([] : List Rc.Token) ++ [.str s] ++ rest.map Rc.Token.str
              = (s :: rest).map Rc.Token.str ++ [] from by simp]
        rw [groupFields_strs]
        simp [Rc.groupFields]

/-- Witness for the amended C6 on a list with whitespace and special
characters. -/
theorem claim6_witness :
    Rc.Tokenize (Rc.Join [['a'], "b c".data, ['$']]) = [['a'], "b c".data, ['$']] :=
  claim6_roundtrip [['a'], "b c".data, ['$']] (by decide)
